import Mathlib

/-!
# A verification development for `httpd.js`

The server in `src/httpd.js` is embedded shallowly:

* a JavaScript string is the list of its UTF-16 code units, because `split('')`,
  `charCodeAt`, non-unicode regular expressions and `===` all work on code units;
* the query object returned by `url.parse(req.url, true)` is the list of its own
  properties in enumeration order, a value being a string or (for a repeated
  parameter) an array of strings;
* a handler is a script: asynchronous file-system calls carry their callback as a
  continuation, and the script ends in what the handler does with `res`.

Functions of the Node.js runtime that the source calls but does not define
(`String.prototype.trim`, `String.prototype.replace`, `JSON.stringify`,
`path.extname`, `res.writeHead`) are modelled after their documented behaviour;
`url.parse`, `path.join`, `__dirname` and the file system are parameters.
-/

namespace Httpd

/-! ## JavaScript strings -/

/-- A JavaScript string, as the sequence of its UTF-16 code units. -/
abbrev JSString := List Nat

/-- UTF-16 encoding of one Unicode scalar value: one unit inside the Basic
Multilingual Plane, a surrogate pair outside of it. -/
def utf16Char (c : Char) : JSString :=
  if c.toNat < 0x10000 then [c.toNat]
  else [0xD800 + (c.toNat - 0x10000) / 0x400, 0xDC00 + (c.toNat - 0x10000) % 0x400]

/-- UTF-16 encoding of a sequence of code points. -/
def utf16 (cs : List Char) : JSString := cs.flatMap utf16Char

/-- The JavaScript string denoted by a source literal. -/
def js (s : String) : JSString := utf16 s.toList

/-! ## `encodeHtmlEntities` (httpd.js 143-150) -/

/-- The call `s.replace(/c/g, rep)` for a regular expression that is the single
literal code unit `c` and a replacement text without `$`: every unit equal to `c`
becomes `rep`, scanning left to right over the input only. -/
def replaceAll (c : Nat) (rep : JSString) : JSString → JSString
  | [] => []
  | u :: rest => if u = c then rep ++ replaceAll c rep rest else u :: replaceAll c rep rest

/-- The function `encodeHtmlEntities`: five global replaces, one after the other. -/
def encodeHtmlEntities (s : JSString) : JSString :=
  replaceAll 39 (js "&#x27;")
    (replaceAll 34 (js "&quot;")
      (replaceAll 62 (js "&gt;")
        (replaceAll 60 (js "&lt;")
          (replaceAll 38 (js "&amp;") s))))

/-- The substitution of the specification for one code unit: the five special
characters become their entity, every other unit stays. -/
def entityOf (u : Nat) : JSString :=
  if u = 38 then js "&amp;"
  else if u = 60 then js "&lt;"
  else if u = 62 then js "&gt;"
  else if u = 34 then js "&quot;"
  else if u = 39 then js "&#x27;"
  else [u]

/-- The single-pass encoder of the specification: each unit of the input is
substituted once, and the substituted text is never looked at again. -/
def encodeSinglePass (s : JSString) : JSString := s.flatMap entityOf

/-! ## `encodeHtmlAttributes` (httpd.js 156-174) -/

/-- The digit character of `Number.prototype.toString(16)` for a value below 16:
`0`-`9` and lowercase `a`-`f`. -/
def hexDigit (d : Nat) : Nat := if d < 10 then 48 + d else 87 + d

/-- Digit loop of `toString(16)`: the least significant digit is produced first and
put in front of the digits already produced. -/
def toStringHexCore : Nat → Nat → JSString → JSString
  | 0, _, acc => acc
  | fuel + 1, n, acc =>
    if n / 16 = 0 then hexDigit (n % 16) :: acc
    else toStringHexCore fuel (n / 16) (hexDigit (n % 16) :: acc)

/-- The call `n.toString(16)` on a non-negative integer. -/
def toString16 (n : Nat) : JSString := toStringHexCore (n + 1) n []

/-- The call `s.toUpperCase()` on the ASCII range (the source applies it to the
output of `toString(16)` only): `a`-`z` become `A`-`Z`. -/
def toUpperCase (s : JSString) : JSString :=
  s.map (fun u => if 97 ≤ u ∧ u ≤ 122 then u - 32 else u)

/-- The test of lines 161-165 on `charCode`. -/
def isAlphanumeric (charCode : Nat) : Bool :=
  (charCode ≥ 48 && charCode ≤ 57) ||
  (charCode ≥ 65 && charCode ≤ 90) ||
  (charCode ≥ 97 && charCode ≤ 122)

/-- The callback given to `map` in `encodeHtmlAttributes`; `char` is a string of
one code unit and `charCodeAt(0)` is that unit. -/
def encodeAttributeChar (charCode : Nat) : JSString :=
  if isAlphanumeric charCode then [charCode]
  else js "&#x" ++ toUpperCase (toString16 charCode) ++ js ";"

/-- The function `encodeHtmlAttributes`: `split('')` cuts the string into its code
units, `map` encodes each, `join('')` concatenates. -/
def encodeHtmlAttributes (s : JSString) : JSString :=
  (s.map encodeAttributeChar).flatten

/-- Value of an uppercase hexadecimal digit character (16 for any other unit). -/
def upperHexDigitValue (u : Nat) : Nat :=
  if 48 ≤ u ∧ u ≤ 57 then u - 48 else if 65 ≤ u ∧ u ≤ 70 then u - 55 else 16

/-- Number denoted by a hexadecimal numeral, most significant digit first. -/
def hexValue (h : JSString) : Nat := h.foldl (fun v u => 16 * v + upperHexDigitValue u) 0

/-- A numeral in uppercase hexadecimal without zero padding: non-empty, digits
`0`-`9` and `A`-`F` only, and no leading `0` unless the numeral is `0` itself. -/
def IsUpperHexNumeral (h : JSString) (n : Nat) : Prop :=
  h ≠ [] ∧ (∀ u ∈ h, upperHexDigitValue u < 16) ∧ hexValue h = n ∧ (h.head? = some 48 → h = [48])

/-- The encoding the specification gives for one code point: an ASCII letter or
digit stays, any other code point becomes one reference with its number in
uppercase hexadecimal. -/
def attributeCodePoint (c : Char) : JSString :=
  if isAlphanumeric c.toNat then utf16Char c
  else js "&#x" ++ toUpperCase (toString16 c.toNat) ++ js ";"

/-- The encoder of the specification: the input is read code point by code point. -/
def encodeByCodePoint (cs : List Char) : JSString := (cs.map attributeCodePoint).flatten

/-! ## Query objects -/

/-- A value of the object `url.parse(req.url, true).query`: a string, or an array
of strings when the parameter occurs more than once in the URL. -/
inductive QueryValue
  | str (s : JSString)
  | arr (items : List JSString)
  deriving DecidableEq

/-- The query object as the list of its own properties, in the order in which
`Object.entries` and `JSON.stringify` enumerate them. Property names of an object
are distinct; theorems that need it assume `(query.map Prod.fst).Nodup`. -/
abbrev Query := List (JSString × QueryValue)

/-- The assignment `query[key] = v`: an existing property keeps its place and takes
the new value; a new property is added (the source only assigns existing ones). -/
def objSet : Query → JSString → QueryValue → Query
  | [], key, v => [(key, v)]
  | (k, w) :: rest, key, v => if k = key then (k, v) :: rest else (k, w) :: objSet rest key v

/-- White space and line terminators of ECMAScript, the units `trim` strips. -/
def isWhiteSpace (u : Nat) : Bool :=
  u == 9 || u == 10 || u == 11 || u == 12 || u == 13 || u == 32 || u == 0xA0 || u == 0x1680 ||
  (0x2000 ≤ u && u ≤ 0x200A) || u == 0x2028 || u == 0x2029 || u == 0x202F || u == 0x205F ||
  u == 0x3000 || u == 0xFEFF

/-- The call `s.trim()`. -/
def trim (s : JSString) : JSString :=
  ((s.dropWhile isWhiteSpace).reverse.dropWhile isWhiteSpace).reverse

/-- Outcome of the validation loop (httpd.js 91-98): `isValid` stayed true, was set
to false, or the loop threw. -/
inductive Validation
  | valid
  | invalid
  | typeError
  deriving DecidableEq

/-- The loop of lines 93-98 over `Object.entries(query)`. `!key.trim()` is true for
a blank key and short-circuits; otherwise `value.trim()` is called, which throws a
`TypeError` on an array (arrays have no `trim`). The first blank pair breaks. -/
def validateQuery : List (JSString × QueryValue) → Validation
  | [] => .valid
  | (key, value) :: rest =>
    if trim key = [] then .invalid
    else
      match value with
      | .str v => if trim v = [] then .invalid else validateQuery rest
      | .arr _ => .typeError

/-- A loop `for (const [key, value] of Object.entries(query)) query[key] = f(value)`
(lines 112-114 and 117-119): `entries` is the snapshot taken when the loop starts,
`f` calls a string method on `value` and so throws on an array (`none`). -/
def encodeLoop (f : JSString → JSString) : List (JSString × QueryValue) → Query → Option Query
  | [], query => some query
  | (key, .str value) :: rest, query => encodeLoop f rest (objSet query key (.str (f value)))
  | (_, .arr _) :: _, _ => none

/-- Both loops of the `readFile` callback: entities first, attributes second, the
second loop reading what the first one stored. -/
def sanitizeQuery (query : Query) : Option Query :=
  match encodeLoop encodeHtmlEntities query query with
  | none => none
  | some query1 => encodeLoop encodeHtmlAttributes query1 query1

/-! ## `JSON.stringify` -/

/-- Four lowercase hexadecimal digits, as in a `\uXXXX` escape. -/
def hex4 (u : Nat) : JSString :=
  [hexDigit (u / 4096 % 16), hexDigit (u / 256 % 16), hexDigit (u / 16 % 16), hexDigit (u % 16)]

/-- The escape of `QuoteJSONString` for one unit `u`, given the unit before it and
the unit after it: short escapes, `\u` escapes for the other control characters and
for a surrogate that is not half of a pair, every other unit as it is. -/
def jsonEscapeUnit (prev : Option Nat) (u : Nat) (next : Option Nat) : JSString :=
  if u = 8 then js "\\b"
  else if u = 9 then js "\\t"
  else if u = 10 then js "\\n"
  else if u = 12 then js "\\f"
  else if u = 13 then js "\\r"
  else if u = 34 then js "\\\""
  else if u = 92 then js "\\\\"
  else if u < 32 then js "\\u" ++ hex4 u
  else if 0xD800 ≤ u ∧ u ≤ 0xDBFF then
    match next with
    | some v => if 0xDC00 ≤ v ∧ v ≤ 0xDFFF then [u] else js "\\u" ++ hex4 u
    | none => js "\\u" ++ hex4 u
  else if 0xDC00 ≤ u ∧ u ≤ 0xDFFF then
    match prev with
    | some v => if 0xD800 ≤ v ∧ v ≤ 0xDBFF then [u] else js "\\u" ++ hex4 u
    | none => js "\\u" ++ hex4 u
  else [u]

/-- The body of `QuoteJSONString` on the units that follow `prev`. -/
def jsonEscapeFrom (prev : Option Nat) : JSString → JSString
  | [] => []
  | u :: rest => jsonEscapeUnit prev u rest.head? ++ jsonEscapeFrom (some u) rest

/-- The escaped text of a whole string. -/
def jsonEscape (s : JSString) : JSString := jsonEscapeFrom none s

/-- The abstract operation `QuoteJSONString`. -/
def quoteJSONString (s : JSString) : JSString := js "\"" ++ jsonEscape s ++ js "\""

/-- The call `items.join(sep)` on an array of strings. -/
def join (sep : JSString) : List JSString → JSString
  | [] => []
  | [x] => x
  | x :: y :: rest => x ++ sep ++ join sep (y :: rest)

/-- Serialization of a property value by `JSON.stringify`. -/
def jsonValue : QueryValue → JSString
  | .str s => quoteJSONString s
  | .arr items => js "[" ++ join (js ",") (items.map quoteJSONString) ++ js "]"

/-- The call `JSON.stringify(query)` without indentation. -/
def jsonStringify (query : Query) : JSString :=
  js "\x7b" ++ join (js ",") (query.map fun p => quoteJSONString p.1 ++ js ":" ++ jsonValue p.2)
    ++ js "\x7d"

/-! ## `String.prototype.replace` with a string pattern -/

/-- First occurrence of `pat` in a string: the text before it and the text after it. -/
def splitAtFirst (pat : JSString) : JSString → Option (JSString × JSString)
  | [] => if pat = [] then some ([], []) else none
  | u :: rest =>
    if pat.isPrefixOf (u :: rest) then some ([], (u :: rest).drop pat.length)
    else (splitAtFirst pat rest).map fun p => (u :: p.1, p.2)

/-- The abstract operation `GetSubstitution` for a match without capture groups:
in the replacement text `$$` stands for `$`, `$&` for the matched text, a dollar
and a backquote for the text before the match, a dollar and a quote for the text
after it; any other `$` is literal. -/
def getSubstitution (matched before after : JSString) : JSString → JSString
  | [] => []
  | u :: rest =>
    if u = 36 then
      match rest with
      | [] => [36]
      | v :: rest2 =>
        if v = 36 then 36 :: getSubstitution matched before after rest2
        else if v = 38 then matched ++ getSubstitution matched before after rest2
        else if v = 96 then before ++ getSubstitution matched before after rest2
        else if v = 39 then after ++ getSubstitution matched before after rest2
        else 36 :: v :: getSubstitution matched before after rest2
    else u :: getSubstitution matched before after rest

/-- The call `s.replace(pat, rep)` with two strings: only the first occurrence of
`pat` is replaced, by the expansion of `rep`. -/
def replace (pat rep s : JSString) : JSString :=
  match splitAtFirst pat s with
  | none => s
  | some (before, after) => before ++ getSubstitution pat before after rep ++ after

/-- Replacement of the first occurrence of `pat` by exactly the text `text`, the
substitution the specification describes. -/
def replaceFirstWith (pat text s : JSString) : JSString :=
  match splitAtFirst pat s with
  | none => s
  | some (before, after) => before ++ text ++ after

/-- Lines 122-125: the three chained `replace` calls on the template. -/
def renderTemplate (template : JSString) (query : Query) : JSString :=
  replace (js "\x7b\x7bquery\x7d\x7d") (jsonStringify query)
    (replace (js "\x7b\x7bpath\x7d\x7d") (js "/information")
      (replace (js "\x7b\x7bmethod\x7d\x7d") (js "GET") template))

/-- The document of the specification: each placeholder's first occurrence is
replaced by its text, the query placeholder by exactly the serialized mapping. -/
def renderTemplateSpec (template : JSString) (query : Query) : JSString :=
  replaceFirstWith (js "\x7b\x7bquery\x7d\x7d") (jsonStringify query)
    (replaceFirstWith (js "\x7b\x7bpath\x7d\x7d") (js "/information")
      (replaceFirstWith (js "\x7b\x7bmethod\x7d\x7d") (js "GET") template))

/-! ## Responses, the file system and handler scripts -/

/-- What a handler finally does with `res`. -/
inductive Reply
  /-- The pair `res.writeHead(status, { 'Content-Type': contentType }); res.end(body)`. -/
  | send (status : Nat) (contentType body : JSString)
  /-- The head `res.writeHead(status, ...)` followed by
  `fs.createReadStream(filePath).pipe(res)`. -/
  | pipe (status : Nat) (contentType filePath : JSString)
  /-- An uncaught `TypeError`; nothing is written. -/
  | typeError
  deriving DecidableEq

/-- The answer of `fs.stat` when it succeeds; only `isDirectory()` is consulted. -/
structure Stats where
  isDirectory : Bool
  deriving DecidableEq

/-- The answers of the file system, `none` standing for a call that reports `err`;
`access p = true` means `fs.access(p, F_OK)` reports no error. -/
structure FileSystem where
  readFile : JSString → Option JSString
  stat : JSString → Option Stats
  access : JSString → Bool
  readdir : JSString → Option (List JSString)

/-- A handler as a script: each asynchronous call holds its callback. -/
inductive Script
  | reply (r : Reply)
  | readFile (filePath : JSString) (callback : Option JSString → Script)
  | stat (filePath : JSString) (callback : Option Stats → Script)
  | access (filePath : JSString) (callback : Bool → Script)
  | readdir (dirPath : JSString) (callback : Option (List JSString) → Script)

/-- Execution of a script against the answers of a file system. -/
def Script.run (fs : FileSystem) : Script → Reply
  | .reply r => r
  | .readFile p k => (k (fs.readFile p)).run fs
  | .stat p k => (k (fs.stat p)).run fs
  | .access p k => (k (fs.access p)).run fs
  | .readdir p k => (k (fs.readdir p)).run fs

/-- What `url.parse(req.url, true)` returns, as far as the source reads it;
`pathname` can be `null`. -/
structure ParsedUrl where
  pathname : Option JSString
  query : Query

/-- The parts of the runtime the source uses and does not define. -/
structure Env where
  dirname : JSString
  pathJoin : List JSString → JSString
  parse : JSString → ParsedUrl

/-- The fields of `req` the source reads. -/
structure Request where
  method : JSString
  url : JSString
  deriving DecidableEq

/-! ## `path.extname` (POSIX) -/

/-- Variables of the scanning loop of `path.extname`; `none` stands for `-1`. -/
structure ExtState where
  startDot : Option Nat
  startPart : Nat
  endIdx : Option Nat
  matchedSlash : Bool
  preDotState : Int
  deriving DecidableEq

/-- The loop of `path.extname`, from index `i - 1` down to `0`. -/
def extnameLoop (p : JSString) : Nat → ExtState → ExtState
  | 0, st => st
  | i + 1, st =>
    let code := p.getD i 0
    if code = 47 then
      if !st.matchedSlash then { st with startPart := i + 1 }
      else extnameLoop p i st
    else
      let st1 := if st.endIdx = none then { st with matchedSlash := false, endIdx := some (i + 1) }
        else st
      let st2 :=
        if code = 46 then
          if st1.startDot = none then { st1 with startDot := some i }
          else if st1.preDotState ≠ 1 then { st1 with preDotState := 1 }
          else st1
        else if st1.startDot ≠ none then { st1 with preDotState := -1 }
        else st1
      extnameLoop p i st2

/-- The call `path.extname(p)`: the text from the last `.` of the last segment to
its end, empty when there is no such `.` or the segment only starts with it. -/
def extname (p : JSString) : JSString :=
  let st := extnameLoop p p.length ⟨none, 0, none, true, 0⟩
  match st.startDot, st.endIdx with
  | some startDot, some endIdx =>
    if st.preDotState = 0 ∨
        (st.preDotState = 1 ∧ startDot = endIdx - 1 ∧ startDot = st.startPart + 1) then []
    else (p.take endIdx).drop startDot
  | _, _ => []

/-! ## The handlers -/

/-- The function `serveFile` (httpd.js 177-195). -/
def serveFile (filePath : JSString) : Script :=
  let ext := extname filePath
  let contentType :=
    if ext = js ".jpg" ∨ ext = js ".jpeg" then js "image/jpeg"
    else if ext = js ".png" then js "image/png"
    else if ext = js ".css" then js "text/css"
    else if ext = js ".js" then js "text/javascript"
    else js "text/html"
  .reply (.pipe 200 contentType filePath)

/-- The function `serveDirectoryListing` (httpd.js 197-207). -/
def serveDirectoryListing (dirPath : JSString) : Script :=
  .readdir dirPath fun r =>
    match r with
    | none => .reply (.send 500 (js "text/plain") (js "Internal Server Error"))
    | some files => .reply (.send 200 (js "text/plain") (js "Directory Listing:\n" ++ join (js "\n") files))

/-- The function `staticFileHandler` (httpd.js 43-66); of `req` it reads `req.url`. -/
def staticFileHandler (env : Env) (req : Request) (_query : Query) : Script :=
  let filePath := env.pathJoin [env.dirname, js "public", req.url]
  .stat filePath fun r =>
    match r with
    | none => .reply (.send 404 (js "text/plain") (js "File not found"))
    | some stats =>
      if stats.isDirectory then
        let indexFilePath := env.pathJoin [filePath, js "index.html"]
        .access indexFilePath fun ok =>
          if !ok then serveDirectoryListing filePath
          else serveFile indexFilePath
      else serveFile filePath

/-- The function `servePage` (httpd.js 68-80). -/
def servePage (env : Env) (pageName : JSString) : Script :=
  let filePath := env.pathJoin [env.dirname, js "public", pageName]
  .readFile filePath fun r =>
    match r with
    | none => .reply (.send 500 (js "text/plain") (js "Internal Server Error"))
    | some pageContent => .reply (.send 200 (js "text/html") pageContent)

/-- The callback of `fs.readFile` in `informationHandler` (httpd.js 106-130). -/
def informationCallback (query : Query) (r : Option JSString) : Script :=
  match r with
  | none => .reply (.send 500 (js "text/plain") (js "Internal Server Error"))
  | some template =>
    match sanitizeQuery query with
    | none => .reply .typeError
    | some sanitized => .reply (.send 200 (js "text/html") (renderTemplate template sanitized))

/-- The function `informationHandler` (httpd.js 85-136); of `req` it reads
`req.method`. -/
def informationHandler (env : Env) (req : Request) (query : Query) : Script :=
  if req.method = js "GET" then
    let templatePath := env.pathJoin [env.dirname, js "templates", js "information.html"]
    match validateQuery query with
    | .typeError => .reply .typeError
    | .invalid => .reply (.send 400 (js "text/plain") (js "Bad Request: Invalid query parameters"))
    | .valid => .readFile templatePath (informationCallback query)
  else .reply (.send 405 (js "text/plain") (js "Method Not Allowed"))

/-! ## The router (httpd.js 25-40) -/

/-- A handler invocation made by the request listener. -/
inductive Call
  | servePage (pageName : JSString)
  | informationHandler (req : Request) (query : Query)
  | staticFileHandler (req : Request) (query : Query)
  deriving DecidableEq

/-- The dispatch of lines 26-40: the handler invocations the listener makes. -/
def dispatch (env : Env) (req : Request) : List Call :=
  let parsedUrl := env.parse req.url
  let pathname := parsedUrl.pathname
  let query := parsedUrl.query
  if pathname = some (js "/") ∨ pathname = some (js "/information") then
    if pathname = some (js "/") then [.servePage (js "index.html")]
    else if pathname = some (js "/information") then [.informationHandler req query]
    else []
  else [.staticFileHandler req query]

/-- The body of the handler a call invokes. -/
def Call.script (env : Env) : Call → Script
  | .servePage pageName => Httpd.servePage env pageName
  | .informationHandler req query => Httpd.informationHandler env req query
  | .staticFileHandler req query => Httpd.staticFileHandler env req query

/-! ## The request timeout guard (httpd.js 13-23) -/

/-- State of `requestTimer`. -/
inductive TimerState
  | armed
  | fired
  | cancelled
  deriving DecidableEq

/-- State of one request: the timer, the flags of `res` the runtime keeps, the
responses begun on the connection, and whether a callback threw (the source
installs no handler for uncaught exceptions, so the process is then gone). -/
structure Exchange where
  timer : TimerState
  headersSent : Bool
  ended : Bool
  finished : Bool
  written : List Reply
  crashed : Bool
  deriving DecidableEq

/-- What can happen to a request after the listener has armed the timer. -/
inductive Event
  /-- The 30 seconds of `requestTimeout` have elapsed. -/
  | timerElapsed
  /-- The dispatched handler comes to the end of its script. -/
  | handler (r : Reply)
  /-- The piped file stream has ended, which calls `res.end()`. -/
  | streamEnd
  /-- The response has been flushed and `res` emits `finish`. -/
  | finish
  deriving DecidableEq

/-- State of a request when the listener has run lines 15-23. -/
def Exchange.start : Exchange := ⟨.armed, false, false, false, [], false⟩

/-- The reply written by the timer callback (lines 16-17). -/
def timeoutReply : Reply := .send 408 (js "text/plain") (js "Request Timeout")

/-- A callback that ends in `r` runs on `res`. `res.writeHead` throws
`ERR_HTTP_HEADERS_SENT` once a head has been written and the callback is then
abandoned; otherwise the head goes out, and `send` also ends the response. -/
def Exchange.respond (x : Exchange) (r : Reply) : Exchange :=
  match r with
  | .typeError => { x with crashed := true }
  | .send _ _ _ =>
    if x.headersSent then { x with crashed := true }
    else { x with headersSent := true, ended := true, written := x.written ++ [r] }
  | .pipe _ _ _ =>
    if x.headersSent then { x with crashed := true }
    else { x with headersSent := true, written := x.written ++ [r] }

/-- One event. A timer fires only while armed (`clearTimeout` and firing both
disarm it); `finish` follows `res.end` once and runs the listener of lines 21-23,
where `clearTimeout` has an effect on an armed timer only. -/
def Exchange.step (x : Exchange) : Event → Exchange
  | .timerElapsed =>
    if x.crashed ∨ x.timer ≠ .armed then x
    else Exchange.respond { x with timer := .fired } timeoutReply
  | .handler r => if x.crashed then x else x.respond r
  | .streamEnd =>
    if x.crashed ∨ x.headersSent = false then x else { x with ended := true }
  | .finish =>
    if x.crashed ∨ x.ended = false ∨ x.finished then x
    else { x with finished := true, timer := if x.timer = .armed then .cancelled else x.timer }

/-- The state after a sequence of events. -/
def Exchange.run (x : Exchange) (trace : List Event) : Exchange := trace.foldl Exchange.step x

/-- The guarantee of the specification for one sequence of events: at most one
response is written, and a timer that has fired means that the response written
is the 408 reply and no other. -/
def TimeoutGuarantee (trace : List Event) : Prop :=
  (Exchange.start.run trace).written.length ≤ 1 ∧
  ((Exchange.start.run trace).timer = .fired → (Exchange.start.run trace).written = [timeoutReply])

/-! ## Statements of the specification used by the theorems -/

/-- A query object all of whose values are strings. -/
def stringQuery (pairs : List (JSString × JSString)) : Query :=
  pairs.map fun p => (p.1, QueryValue.str p.2)

/-- The text the attribute encoder owes for one unit `u` of its input: the unit
itself for an ASCII digit or letter, otherwise a character reference with the
number of the unit in uppercase hexadecimal, not padded. -/
def IsAttributePiece (u : Nat) (piece : JSString) : Prop :=
  if (48 ≤ u ∧ u ≤ 57) ∨ (65 ≤ u ∧ u ≤ 90) ∨ (97 ≤ u ∧ u ≤ 122) then piece = [u]
  else ∃ h, IsUpperHexNumeral h u ∧ piece = js "&#x" ++ h ++ js ";"

/-- The content type the specification gives for a file extension: a table of
five extensions, and `text/html` for an extension that is not in it. -/
def contentTypeFor (ext : JSString) : JSString :=
  ([(js ".jpg", js "image/jpeg"), (js ".jpeg", js "image/jpeg"), (js ".png", js "image/png"),
    (js ".css", js "text/css"), (js ".js", js "text/javascript")].lookup ext).getD
    (js "text/html")

/-! ## A concrete environment, for instances of the theorems -/

/-- Joining of path segments with one `/` between two of them; agrees with
`path.join` on segments that need no normalization. -/
def examplePathJoin (parts : List JSString) : JSString :=
  parts.foldl
    (fun acc p => if acc = [] then p else if p.head? = some 47 then acc ++ p else acc ++ [47] ++ p)
    []

/-- An environment: the server lives in `/srv`, and `url.parse` is taken on URLs
without query string, where the path is the whole URL and the query is empty. -/
def exampleEnv : Env := ⟨js "/srv", examplePathJoin, fun u => ⟨some u, []⟩⟩

/-- A file system with the template, one picture, one directory `/srv/public/docs`
without index page holding two entries, and one directory `/srv/public/site` with
an index page. -/
def exampleFs : FileSystem where
  readFile p :=
    if p = js "/srv/templates/information.html" then some (js "<p>\x7b\x7bquery\x7d\x7d</p>")
    else none
  stat p :=
    if p = js "/srv/public/logo.png" then some ⟨false⟩
    else if p = js "/srv/public/docs" ∨ p = js "/srv/public/site" then some ⟨true⟩
    else none
  access p := p = js "/srv/public/site/index.html"
  readdir p := if p = js "/srv/public/docs" then some [js "a.txt", js "b"] else none

/-- Facts that hold of a request in every state it can reach: the responses
written are none before a head is sent and one after, a response ends only after
its head, `finish` comes only after the end, and a timer is cancelled only by
`finish`. -/
def Exchange.Consistent (x : Exchange) : Prop :=
  (x.headersSent = false → x.written = []) ∧
  (x.headersSent = true → x.written.length = 1) ∧
  (x.ended = true → x.headersSent = true) ∧
  (x.finished = true → x.ended = true) ∧
  (x.timer = .cancelled → x.finished = true)

/-! ## Lemmas on the sanitizer -/

theorem replaceAll_append (c : Nat) (rep a b : JSString) :
    replaceAll c rep (a ++ b) = replaceAll c rep a ++ replaceAll c rep b := by
  induction a with
  | nil => rfl
  | cons u rest ih =>
    by_cases h : u = c <;> simp [replaceAll, h, ih]

theorem encodeHtmlEntities_append (a b : JSString) :
    encodeHtmlEntities (a ++ b) = encodeHtmlEntities a ++ encodeHtmlEntities b := by
  simp only [encodeHtmlEntities, replaceAll_append]

theorem encodeHtmlEntities_singleton (u : Nat) : encodeHtmlEntities [u] = entityOf u := by
  by_cases h1 : u = 38
  · subst h1; decide
  by_cases h2 : u = 60
  · subst h2; decide
  by_cases h3 : u = 62
  · subst h3; decide
  by_cases h4 : u = 34
  · subst h4; decide
  by_cases h5 : u = 39
  · subst h5; decide
  simp [encodeHtmlEntities, entityOf, replaceAll, h1, h2, h3, h4, h5]

theorem encodeHtmlEntities_cons (u : Nat) (s : JSString) :
    encodeHtmlEntities (u :: s) = entityOf u ++ encodeHtmlEntities s := by
  have h := encodeHtmlEntities_append [u] s
  rw [encodeHtmlEntities_singleton] at h
  simpa using h

theorem encodeHtmlEntities_eq_encodeSinglePass (s : JSString) :
    encodeHtmlEntities s = encodeSinglePass s := by
  induction s with
  | nil => rfl
  | cons u rest ih => rw [encodeHtmlEntities_cons, ih]; simp [encodeSinglePass]

theorem entityOf_safe (u v : Nat) (hv : v ∈ entityOf u) :
    v ≠ 60 ∧ v ≠ 62 ∧ v ≠ 34 ∧ v ≠ 39 := by
  unfold entityOf at hv
  split at hv
  · revert v; decide
  split at hv
  · revert v; decide
  split at hv
  · revert v; decide
  split at hv
  · revert v; decide
  split at hv
  · revert v; decide
  · simp at hv; subst hv; omega


theorem toStringHexCore_eq_digits (fuel : Nat) :
    ∀ (n : Nat) (acc : JSString), 0 < n → n < fuel →
      toStringHexCore fuel n acc = ((Nat.digits 16 n).reverse.map hexDigit) ++ acc := by
  induction fuel with
  | zero => intro n acc _ h; omega
  | succ fuel ih =>
    intro n acc hpos hlt
    have hd : Nat.digits 16 n = (n % 16) :: Nat.digits 16 (n / 16) :=
      Nat.digits_def' (by norm_num) hpos
    by_cases hq : n / 16 = 0
    · simp [toStringHexCore, hq, hd]
    · have hq' : 0 < n / 16 := Nat.pos_of_ne_zero hq
      have hlt' : n / 16 < fuel := by omega
      simp [toStringHexCore, hq, hd, ih (n / 16) _ hq' hlt']

theorem toString16_eq_digits (n : Nat) (hpos : 0 < n) :
    toString16 n = (Nat.digits 16 n).reverse.map hexDigit := by
  simpa [toString16] using toStringHexCore_eq_digits (n + 1) n [] hpos (by omega)

theorem upperHexDigitValue_upper_hexDigit (d : Nat) (hd : d < 16) :
    upperHexDigitValue (if 97 ≤ hexDigit d ∧ hexDigit d ≤ 122 then hexDigit d - 32 else hexDigit d)
      = d := by
  interval_cases d <;> decide

theorem hexValue_upper_digits (l : List Nat) (hl : ∀ d ∈ l, d < 16) :
    hexValue (toUpperCase (l.reverse.map hexDigit)) = Nat.ofDigits 16 l := by
  induction l with
  | nil => rfl
  | cons d t ih =>
    have ht : ∀ x ∈ t, x < 16 := fun x hx => hl x (List.mem_cons_of_mem _ hx)
    have hd : d < 16 := hl d (List.mem_cons_self _ _)
    have ih' := ih ht
    simp only [hexValue, toUpperCase] at ih' ⊢
    simp only [List.reverse_cons, List.map_append, List.map_cons, List.map_nil,
      List.foldl_append, List.foldl_cons, List.foldl_nil, ih', Nat.ofDigits_cons,
      upperHexDigitValue_upper_hexDigit d hd]
    ring

theorem toUpperCase_toString16_isUpperHexNumeral (n : Nat) :
    IsUpperHexNumeral (toUpperCase (toString16 n)) n := by
  rcases Nat.eq_zero_or_pos n with h0 | hpos
  · subst h0
    refine ⟨by decide, by decide, by decide, by decide⟩
  · have hne : Nat.digits 16 n ≠ [] := Nat.digits_ne_nil_iff_ne_zero.mpr (by omega)
    have hlt : ∀ d ∈ Nat.digits 16 n, d < 16 := fun d hd => Nat.digits_lt_base (by norm_num) hd
    rw [toString16_eq_digits n hpos]
    refine ⟨?_, ?_, ?_, ?_⟩
    · simp [toUpperCase, hne]
    · intro u hu
      simp only [toUpperCase, List.map_map, List.mem_map, List.mem_reverse] at hu
      obtain ⟨d, hd, rfl⟩ := hu
      have := upperHexDigitValue_upper_hexDigit d (hlt d hd)
      simp only [Function.comp] at *
      rw [this]; exact hlt d hd
    · rw [hexValue_upper_digits _ hlt, Nat.ofDigits_digits]
    · intro hhead
      exfalso
      have hlast := Nat.getLast_digit_ne_zero 16 (m := n) (by omega)
      have hlastlt := hlt _ (List.getLast_mem hne)
      obtain ⟨l, hl⟩ : ∃ l, Nat.digits 16 n = l ++ [(Nat.digits 16 n).getLast hne] :=
        ⟨_, (List.dropLast_append_getLast hne).symm⟩
      generalize (Nat.digits 16 n).getLast hne = last at hlast hlastlt hl
      rw [hl] at hhead
      simp only [toUpperCase, List.reverse_append, List.reverse_cons, List.reverse_nil,
        List.nil_append, List.singleton_append, List.map_cons, List.head?_cons,
        Option.some.injEq] at hhead
      interval_cases last <;> simp_all [hexDigit]

theorem encodeAttributeChar_isAttributePiece (u : Nat) :
    IsAttributePiece u (encodeAttributeChar u) := by
  unfold IsAttributePiece encodeAttributeChar
  by_cases h : (48 ≤ u ∧ u ≤ 57) ∨ (65 ≤ u ∧ u ≤ 90) ∨ (97 ≤ u ∧ u ≤ 122)
  · have ha : isAlphanumeric u = true := by
      simp only [isAlphanumeric, Bool.or_eq_true, Bool.and_eq_true, decide_eq_true_eq]
      omega
    simp [h, ha]
  · have ha : isAlphanumeric u = false := by
      rw [← Bool.not_eq_true]
      simp only [isAlphanumeric, Bool.or_eq_true, Bool.and_eq_true, decide_eq_true_eq]
      omega
    rw [if_neg h]
    simp only [ha]
    exact ⟨_, toUpperCase_toString16_isUpperHexNumeral u, by simp⟩

theorem encodeHtmlAttributes_pieces (s : JSString) :
    ∃ pieces, List.Forall₂ IsAttributePiece s pieces ∧ encodeHtmlAttributes s = pieces.flatten := by
  refine ⟨s.map encodeAttributeChar, ?_, rfl⟩
  induction s with
  | nil => exact List.Forall₂.nil
  | cons u rest ih => exact List.Forall₂.cons (encodeAttributeChar_isAttributePiece u) ih

theorem encodeHtmlAttributes_bmp (cs : List Char) (hbmp : ∀ c ∈ cs, c.toNat < 0x10000) :
    encodeHtmlAttributes (utf16 cs) = encodeByCodePoint cs := by
  induction cs with
  | nil => rfl
  | cons c rest ih =>
    have hc : c.toNat < 0x10000 := hbmp c (List.mem_cons_self _ _)
    have hrest := ih (fun x hx => hbmp x (List.mem_cons_of_mem _ hx))
    simp only [encodeHtmlAttributes, encodeByCodePoint, utf16] at hrest ⊢
    simp only [List.flatMap_cons, List.map_cons, List.map_append, List.flatten_append,
      List.flatten_cons, hrest]
    congr 1
    simp [utf16Char, hc, attributeCodePoint, encodeAttributeChar]

/-- C2: `encodeHtmlEntities` is the single-pass substitution of `&`, `<`, `>`, `"`
and `'` by their entities on every string, so text inserted by an earlier replace
is never encoded again; its output holds no `<`, `>`, `"` or `'`; and `<script>`
becomes `&lt;script&gt;`. -/
theorem encodeHtmlEntities_single_pass :
    (∀ s : JSString, encodeHtmlEntities s = encodeSinglePass s) ∧
    (∀ s : JSString, ∀ u ∈ encodeHtmlEntities s, u ≠ 60 ∧ u ≠ 62 ∧ u ≠ 34 ∧ u ≠ 39) ∧
    encodeHtmlEntities (js "<script>") = js "&lt;script&gt;" := by
  refine ⟨encodeHtmlEntities_eq_encodeSinglePass, ?_, by decide⟩
  intro s u hu
  rw [encodeHtmlEntities_eq_encodeSinglePass, encodeSinglePass, List.mem_flatMap] at hu
  obtain ⟨a, _, hua⟩ := hu
  exact entityOf_safe a u hua

/-- Instance of C2 at the string `a<'&`: the unit `&` occurs in the output and
none of the four forbidden characters does. -/
theorem encodeHtmlEntities_single_pass_witness :
    encodeHtmlEntities (js "a<'&") = encodeSinglePass (js "a<'&") ∧
    (38 ≠ 60 ∧ 38 ≠ 62 ∧ 38 ≠ 34 ∧ 38 ≠ 39) :=
  ⟨encodeHtmlEntities_single_pass.1 (js "a<'&"),
    encodeHtmlEntities_single_pass.2.1 (js "a<'&") 38 (by decide)⟩

/-- C3 as written fails: on the string made of the code point U+1F600 the code
encodes the two surrogate units, `&#xD83D;&#xDE00;`, where the claim asks for
`&#x1F600;`. -/
theorem encodeHtmlAttributes_astral_counterexample :
    encodeHtmlAttributes (utf16 [Char.ofNat 0x1F600]) = js "&#xD83D;&#xDE00;" ∧
    encodeByCodePoint [Char.ofNat 0x1F600] = js "&#x1F600;" ∧
    ¬ (∀ cs : List Char, encodeHtmlAttributes (utf16 cs) = encodeByCodePoint cs) := by
  refine ⟨by decide, by decide, fun h => ?_⟩
  exact absurd (h [Char.ofNat 0x1F600]) (by decide)

/-- C3 amended: `encodeHtmlAttributes` is, on every string, the concatenation in
order of one piece per UTF-16 code unit: the unit itself when it is in
[0x30,0x39], [0x41,0x5A] or [0x61,0x7A], otherwise `&#x`, the number of the unit in
uppercase hexadecimal without padding, and `;`. On a string whose characters all
lie in the Basic Multilingual Plane this is the encoding code point by code
point, and `a b` becomes `a&#x20;b`. -/
theorem encodeHtmlAttributes_per_code_unit :
    (∀ s : JSString, ∃ pieces,
      List.Forall₂ IsAttributePiece s pieces ∧ encodeHtmlAttributes s = pieces.flatten) ∧
    (∀ cs : List Char, (∀ c ∈ cs, c.toNat < 0x10000) →
      encodeHtmlAttributes (utf16 cs) = encodeByCodePoint cs) ∧
    encodeHtmlAttributes (js "a b") = js "a&#x20;b" :=
  ⟨encodeHtmlAttributes_pieces, encodeHtmlAttributes_bmp, by decide⟩

/-- Instance of the amended C3 at the string `é=1`, all of whose characters are in
the Basic Multilingual Plane. -/
theorem encodeHtmlAttributes_per_code_unit_witness :
    (∀ c ∈ [Char.ofNat 0xE9, '=', '1'], c.toNat < 0x10000) ∧
    encodeHtmlAttributes (utf16 [Char.ofNat 0xE9, '=', '1']) =
      encodeByCodePoint [Char.ofNat 0xE9, '=', '1'] :=
  ⟨by decide, encodeHtmlAttributes_per_code_unit.2.1 [Char.ofNat 0xE9, '=', '1'] (by decide)⟩

/-! ## Lemmas on the query loops -/

theorem objSet_of_not_mem (pre : Query) (k : JSString) (w v : QueryValue) (rest : Query)
    (hk : k ∉ pre.map Prod.fst) :
    objSet (pre ++ (k, w) :: rest) k v = pre ++ (k, v) :: rest := by
  induction pre with
  | nil => simp [objSet]
  | cons p pre ih =>
    obtain ⟨k1, w1⟩ := p
    simp only [List.map_cons, List.mem_cons, not_or] at hk
    have hne : ¬ k1 = k := fun h => hk.1 h.symm
    simp [objSet, hne, ih hk.2]

theorem encodeLoop_stringQuery (f : JSString → JSString) (rest : List (JSString × JSString)) :
    ∀ pre : List (JSString × JSString), ((pre ++ rest).map Prod.fst).Nodup →
      encodeLoop f (stringQuery rest)
          (stringQuery (pre.map (fun p => (p.1, f p.2)) ++ rest)) =
        some (stringQuery ((pre ++ rest).map fun p => (p.1, f p.2))) := by
  induction rest with
  | nil => intro pre _; simp [encodeLoop, stringQuery]
  | cons p rest ih =>
    intro pre hnd
    obtain ⟨k, v⟩ := p
    have hk : k ∉ (stringQuery (pre.map fun p => (p.1, f p.2))).map Prod.fst := by
      have h1 : (stringQuery (pre.map fun p => (p.1, f p.2))).map Prod.fst = pre.map Prod.fst := by
        simp [stringQuery, Function.comp_def]
      rw [h1]
      simp only [List.map_append, List.map_cons] at hnd
      have := (List.nodup_append.mp hnd).2.2
      intro hmem
      exact this hmem (List.mem_cons_self _ _) 
    have hset := objSet_of_not_mem _ k (.str v) (.str (f v)) (stringQuery rest) hk
    have hnd2 : (((pre ++ [(k, v)]) ++ rest).map Prod.fst).Nodup := by simpa using hnd
    have ih2 := ih (pre ++ [(k, v)]) hnd2
    simp only [stringQuery, List.map_append, List.map_cons, List.map_nil, List.append_assoc,
      List.singleton_append, encodeLoop] at hset ih2 ⊢
    rw [hset, ih2]

theorem encodeLoop_stringQuery_all (f : JSString → JSString) (pairs : List (JSString × JSString))
    (hnd : (pairs.map Prod.fst).Nodup) :
    encodeLoop f (stringQuery pairs) (stringQuery pairs) =
      some (stringQuery (pairs.map fun p => (p.1, f p.2))) := by
  simpa using encodeLoop_stringQuery f pairs [] (by simpa using hnd)

theorem sanitizeQuery_stringQuery (pairs : List (JSString × JSString))
    (hnd : (pairs.map Prod.fst).Nodup) :
    sanitizeQuery (stringQuery pairs) =
      some (stringQuery
        (pairs.map fun p => (p.1, encodeHtmlAttributes (encodeHtmlEntities p.2)))) := by
  have hnd1 : ((pairs.map fun p => (p.1, encodeHtmlEntities p.2)).map Prod.fst).Nodup := by
    simpa [Function.comp_def] using hnd
  simp only [sanitizeQuery, encodeLoop_stringQuery_all _ pairs hnd,
    encodeLoop_stringQuery_all _ _ hnd1, List.map_map, Function.comp_def]

theorem validateQuery_stringQuery_valid (pairs : List (JSString × JSString))
    (hvalid : ∀ p ∈ pairs, trim p.1 ≠ [] ∧ trim p.2 ≠ []) :
    validateQuery (stringQuery pairs) = .valid := by
  induction pairs with
  | nil => rfl
  | cons p rest ih =>
    have hp := hvalid p (List.mem_cons_self _ _)
    have hrest := ih (fun x hx => hvalid x (List.mem_cons_of_mem _ hx))
    simp only [stringQuery, List.map_cons] at hrest ⊢
    simp [validateQuery, hp.1, hp.2, hrest]

theorem validateQuery_stringQuery_invalid (pairs : List (JSString × JSString))
    (hblank : ∃ p ∈ pairs, trim p.1 = [] ∨ trim p.2 = []) :
    validateQuery (stringQuery pairs) = .invalid := by
  induction pairs with
  | nil => simp at hblank
  | cons p rest ih =>
    simp only [stringQuery, List.map_cons, validateQuery]
    by_cases h1 : trim p.1 = []
    · simp [h1]
    by_cases h2 : trim p.2 = []
    · simp [h1, h2]
    · have : ∃ q ∈ rest, trim q.1 = [] ∨ trim q.2 = [] := by
        obtain ⟨q, hq, hb⟩ := hblank
        rcases List.mem_cons.mp hq with rfl | hq
        · rcases hb with hb | hb
          · exact absurd hb h1
          · exact absurd hb h2
        · exact ⟨q, hq, hb⟩
      have := ih this
      simp only [stringQuery] at this
      simp [h1, h2, this]

/-- On a query object with string values, a blank key or value anywhere makes the
GET handler answer 400 at once: the script is that reply alone, with no file-system
call and no assignment to the query object. -/
theorem informationHandler_blank_stringQuery (env : Env) (req : Request)
    (pairs : List (JSString × JSString)) (hmethod : req.method = js "GET")
    (hblank : ∃ p ∈ pairs, trim p.1 = [] ∨ trim p.2 = []) :
    informationHandler env req (stringQuery pairs) =
      .reply (.send 400 (js "text/plain") (js "Bad Request: Invalid query parameters")) := by
  simp [informationHandler, hmethod, validateQuery_stringQuery_invalid pairs hblank]

/-- C1: for a query object with string values whose keys and values are all
non-blank after trimming, the GET handler with a readable template answers 200 with
content type `text/html`; the object it serializes for the query placeholder has
the original keys in place and, for each key, the value
`encodeHtmlAttributes (encodeHtmlEntities v)` of the original value `v`. -/
theorem informationHandler_valid_get (env : Env) (fs : FileSystem) (req : Request)
    (pairs : List (JSString × JSString)) (template : JSString)
    (hmethod : req.method = js "GET")
    (hkeys : (pairs.map Prod.fst).Nodup)
    (hvalid : ∀ p ∈ pairs, trim p.1 ≠ [] ∧ trim p.2 ≠ [])
    (hread : fs.readFile (env.pathJoin [env.dirname, js "templates", js "information.html"])
      = some template) :
    sanitizeQuery (stringQuery pairs) =
      some (stringQuery
        (pairs.map fun p => (p.1, encodeHtmlAttributes (encodeHtmlEntities p.2)))) ∧
    (informationHandler env req (stringQuery pairs)).run fs =
      .send 200 (js "text/html")
        (renderTemplate template (stringQuery
          (pairs.map fun p => (p.1, encodeHtmlAttributes (encodeHtmlEntities p.2))))) := by
  refine ⟨sanitizeQuery_stringQuery pairs hkeys, ?_⟩
  simp [informationHandler, hmethod, validateQuery_stringQuery_valid pairs hvalid, Script.run,
    hread, informationCallback, sanitizeQuery_stringQuery pairs hkeys]

/-- Instance of C1: the query `q=<b>` against the template `<p>{{query}}</p>`. -/
theorem informationHandler_valid_get_witness :
    sanitizeQuery (stringQuery [(js "q", js "<b>")]) =
      some (stringQuery ([(js "q", js "<b>")].map
        fun p => (p.1, encodeHtmlAttributes (encodeHtmlEntities p.2)))) ∧
    (informationHandler exampleEnv ⟨js "GET", js "/information?q=<b>"⟩
        (stringQuery [(js "q", js "<b>")])).run exampleFs =
      .send 200 (js "text/html")
        (renderTemplate (js "<p>\x7b\x7bquery\x7d\x7d</p>") (stringQuery ([(js "q", js "<b>")].map
          fun p => (p.1, encodeHtmlAttributes (encodeHtmlEntities p.2))))) :=
  informationHandler_valid_get exampleEnv exampleFs ⟨js "GET", js "/information?q=<b>"⟩
    [(js "q", js "<b>")] (js "<p>\x7b\x7bquery\x7d\x7d</p>")
    (by decide) (by decide) (by decide) (by decide)

/-- C4 at the query of `/information?a=1&a=2&b=`: the parameter `a` is repeated, so
its value is an array, and it is enumerated before the blank `b`. The validation
loop calls `trim` on the array and throws; no 400 reply is made. -/
theorem informationHandler_array_before_blank (env : Env) (url : JSString) :
    informationHandler env ⟨js "GET", url⟩
        [(js "a", .arr [js "1", js "2"]), (js "b", .str (js ""))] =
      .reply .typeError := by
  have hv : validateQuery [(js "a", .arr [js "1", js "2"]), (js "b", .str (js ""))]
      = .typeError := by decide
  simp [informationHandler, hv]

/-- C5: for a method other than GET the handler answers 405 `Method Not Allowed` in
plain text whatever the query object is; the query is not looked at, so the answer
is never 400 or 200. -/
theorem informationHandler_method_not_allowed (env : Env) (req : Request) (query : Query)
    (hmethod : req.method ≠ js "GET") :
    informationHandler env req query =
      .reply (.send 405 (js "text/plain") (js "Method Not Allowed")) := by
  simp [informationHandler, hmethod]

/-- Instance of C5: a POST whose query has a blank value and a repeated parameter. -/
theorem informationHandler_method_not_allowed_witness :
    informationHandler exampleEnv ⟨js "POST", js "/information?a=&b=1&b=2"⟩
        [(js "a", .str (js "")), (js "b", .arr [js "1", js "2"])] =
      .reply (.send 405 (js "text/plain") (js "Method Not Allowed")) :=
  informationHandler_method_not_allowed exampleEnv ⟨js "POST", js "/information?a=&b=1&b=2"⟩
    [(js "a", .str (js "")), (js "b", .arr [js "1", js "2"])] (by decide)

/-! ## Lemmas on `replace` -/

theorem getSubstitution_of_no_dollar (matched before after : JSString) (rep : JSString)
    (h : 36 ∉ rep) : getSubstitution matched before after rep = rep := by
  induction rep with
  | nil => rfl
  | cons u rest ih =>
    simp only [List.mem_cons, not_or] at h
    have hu : ¬ u = 36 := fun e => h.1 e.symm
    rw [getSubstitution.eq_def]
    simp [hu, ih h.2]

theorem replace_of_no_dollar (pat rep s : JSString) (h : 36 ∉ rep) :
    replace pat rep s = replaceFirstWith pat rep s := by
  unfold replace replaceFirstWith
  cases splitAtFirst pat s with
  | none => rfl
  | some p => simp [getSubstitution_of_no_dollar _ _ _ rep h]

/-- When the serialized query holds no `$`, the document is the template with the
first occurrence of each placeholder replaced by its text. -/
theorem renderTemplate_of_no_dollar (template : JSString) (query : Query)
    (h : 36 ∉ jsonStringify query) :
    renderTemplate template query = renderTemplateSpec template query := by
  unfold renderTemplate renderTemplateSpec
  rw [replace_of_no_dollar _ _ _ h, replace_of_no_dollar _ (js "/information") _ (by decide),
    replace_of_no_dollar _ (js "GET") _ (by decide)]

/-- C6 at the key `$$` (request `/information?$$=x`) and the template `{{query}}`:
the sanitized mapping serializes to `{"$$":"x"}`, which is what the claim puts in
place of the placeholder, and the code produces `{"$":"x"}`, because `replace`
reads `$$` in its replacement argument as an escape for one `$`. -/
theorem renderTemplate_dollar_key :
    sanitizeQuery (stringQuery [(js "$$", js "x")]) = some (stringQuery [(js "$$", js "x")]) ∧
    jsonStringify (stringQuery [(js "$$", js "x")]) = js "\x7b\"$$\":\"x\"\x7d" ∧
    renderTemplateSpec (js "\x7b\x7bquery\x7d\x7d") (stringQuery [(js "$$", js "x")]) =
      js "\x7b\"$$\":\"x\"\x7d" ∧
    renderTemplate (js "\x7b\x7bquery\x7d\x7d") (stringQuery [(js "$$", js "x")]) =
      js "\x7b\"$\":\"x\"\x7d" ∧
    informationCallback (stringQuery [(js "$$", js "x")]) (some (js "\x7b\x7bquery\x7d\x7d")) =
      .reply (.send 200 (js "text/html") (js "\x7b\"$\":\"x\"\x7d")) := by
  refine ⟨by decide, by decide, by decide, by decide, ?_⟩
  rfl

/-! ## The router and the static file resolver -/

/-- C7: the listener makes exactly one handler call, chosen by the parsed path
alone: `servePage` of `index.html` when the path is `/`, `informationHandler` with
the query object when it is `/information`, `staticFileHandler` for every other
path (a `null` path included); the static handler resolves the unparsed `req.url`
and does not depend on the query object. -/
theorem dispatch_by_pathname (env : Env) (req : Request) :
    ((env.parse req.url).pathname = some (js "/") →
      dispatch env req = [.servePage (js "index.html")]) ∧
    ((env.parse req.url).pathname = some (js "/information") →
      dispatch env req = [.informationHandler req (env.parse req.url).query]) ∧
    ((env.parse req.url).pathname ≠ some (js "/") →
      (env.parse req.url).pathname ≠ some (js "/information") →
      dispatch env req = [.staticFileHandler req (env.parse req.url).query]) ∧
    (∀ query, ∃ callback, Call.script env (.staticFileHandler req query) =
      .stat (env.pathJoin [env.dirname, js "public", req.url]) callback) ∧
    (∀ query1 query2, Call.script env (.staticFileHandler req query1) =
      Call.script env (.staticFileHandler req query2)) := by
  refine ⟨?_, ?_, ?_, ?_, ?_⟩
  · intro h
    simp [dispatch, h]
  · intro h
    have hne : ¬ (some (js "/information") = some (js "/")) := by decide
    simp [dispatch, h, hne]
  · intro h1 h2
    simp [dispatch, h1, h2]
  · intro query
    exact ⟨_, rfl⟩
  · intro query1 query2
    rfl

/-- Instance of C7: the paths `/information/` and `/Information` go to the static
handler. -/
theorem dispatch_by_pathname_witness :
    dispatch exampleEnv ⟨js "GET", js "/information/"⟩ =
      [.staticFileHandler ⟨js "GET", js "/information/"⟩ []] ∧
    dispatch exampleEnv ⟨js "GET", js "/Information"⟩ =
      [.staticFileHandler ⟨js "GET", js "/Information"⟩ []] :=
  ⟨(dispatch_by_pathname exampleEnv ⟨js "GET", js "/information/"⟩).2.2.1
      (by decide) (by decide),
    (dispatch_by_pathname exampleEnv ⟨js "GET", js "/Information"⟩).2.2.1
      (by decide) (by decide)⟩

theorem join_eq_intercalate (sep : JSString) (items : List JSString) :
    join sep items = sep.intercalate items := by
  induction items with
  | nil => rfl
  | cons x rest ih =>
    cases rest with
    | nil => simp [join, List.intercalate]
    | cons y rest2 =>
      simp only [join, ih]
      simp [List.intercalate, List.intersperse]

theorem serveFile_eq_pipe (filePath : JSString) :
    serveFile filePath =
      .reply (.pipe 200 (contentTypeFor (extname filePath)) filePath) := by
  unfold serveFile
  generalize extname filePath = ext
  by_cases h1 : ext = js ".jpg"
  · subst h1; rfl
  by_cases h2 : ext = js ".jpeg"
  · subst h2; rfl
  by_cases h3 : ext = js ".png"
  · subst h3; rfl
  by_cases h4 : ext = js ".css"
  · subst h4; rfl
  by_cases h5 : ext = js ".js"
  · subst h5; rfl
  have b1 : (ext == js ".jpg") = false := beq_eq_false_iff_ne.mpr h1
  have b2 : (ext == js ".jpeg") = false := beq_eq_false_iff_ne.mpr h2
  have b3 : (ext == js ".png") = false := beq_eq_false_iff_ne.mpr h3
  have b4 : (ext == js ".css") = false := beq_eq_false_iff_ne.mpr h4
  have b5 : (ext == js ".js") = false := beq_eq_false_iff_ne.mpr h5
  simp only [contentTypeFor, List.lookup, b1, b2, b3, b4, b5, Option.getD, h1, h2, h3, h4, h5,
    or_self, if_false]

/-- C9: the answer of the static handler follows the file system: 404 `File not
found` when `stat` fails; for a directory whose `index.html` is not accessible and
whose entries can be read, 200 in plain text with `Directory Listing:`, a line
feed, and the entries in the order given separated by line feeds (the header and
its line feed alone for an empty directory); for a directory with `index.html`,
a 200 head with the content type of the index path's extension and the index file
streamed as the body; for a regular file, a 200 head with the content type of its
extension and that file streamed as the body. -/
theorem staticFileHandler_cases (env : Env) (fs : FileSystem) (req : Request) (query : Query) :
    (fs.stat (env.pathJoin [env.dirname, js "public", req.url]) = none →
      (staticFileHandler env req query).run fs =
        .send 404 (js "text/plain") (js "File not found")) ∧
    (∀ entries : List JSString,
      fs.stat (env.pathJoin [env.dirname, js "public", req.url]) = some ⟨true⟩ →
      fs.access (env.pathJoin [env.pathJoin [env.dirname, js "public", req.url],
        js "index.html"]) = false →
      fs.readdir (env.pathJoin [env.dirname, js "public", req.url]) = some entries →
      (staticFileHandler env req query).run fs =
        .send 200 (js "text/plain")
          (js "Directory Listing:\n" ++ (js "\n").intercalate entries) ∧
      (entries = [] → (staticFileHandler env req query).run fs =
        .send 200 (js "text/plain") (js "Directory Listing:\n"))) ∧
    (fs.stat (env.pathJoin [env.dirname, js "public", req.url]) = some ⟨true⟩ →
      fs.access (env.pathJoin [env.pathJoin [env.dirname, js "public", req.url],
        js "index.html"]) = true →
      (staticFileHandler env req query).run fs =
        .pipe 200
          (contentTypeFor (extname (env.pathJoin
            [env.pathJoin [env.dirname, js "public", req.url], js "index.html"])))
          (env.pathJoin [env.pathJoin [env.dirname, js "public", req.url], js "index.html"])) ∧
    (fs.stat (env.pathJoin [env.dirname, js "public", req.url]) = some ⟨false⟩ →
      (staticFileHandler env req query).run fs =
        .pipe 200
          (contentTypeFor (extname (env.pathJoin [env.dirname, js "public", req.url])))
          (env.pathJoin [env.dirname, js "public", req.url])) := by
  refine ⟨?_, ?_, ?_, ?_⟩
  · intro h
    simp [staticFileHandler, Script.run, h]
  · intro entries hstat haccess hreaddir
    have hrun : (staticFileHandler env req query).run fs =
        .send 200 (js "text/plain")
          (js "Directory Listing:\n" ++ (js "\n").intercalate entries) := by
      simp [staticFileHandler, Script.run, hstat, haccess, serveDirectoryListing, hreaddir,
        join_eq_intercalate]
    refine ⟨hrun, ?_⟩
    intro hempty
    rw [hrun, hempty]
    simp [List.intercalate]
  · intro hstat haccess
    simp [staticFileHandler, Script.run, hstat, haccess, serveFile_eq_pipe]
  · intro hstat
    simp [staticFileHandler, Script.run, hstat, serveFile_eq_pipe]

/-- Instance of C9 on the example file system: a missing path gives 404, the
directory `docs` without index page gives its listing, the directory `site`
streams its `index.html` as `text/html`, and the picture `logo.png` is streamed as
`image/png`. -/
theorem staticFileHandler_cases_witness :
    (staticFileHandler exampleEnv ⟨js "GET", js "/doesnotexist.png"⟩ []).run exampleFs =
      .send 404 (js "text/plain") (js "File not found") ∧
    (staticFileHandler exampleEnv ⟨js "GET", js "/docs"⟩ []).run exampleFs =
      .send 200 (js "text/plain") (js "Directory Listing:\na.txt\nb") ∧
    (staticFileHandler exampleEnv ⟨js "GET", js "/site"⟩ []).run exampleFs =
      .pipe 200 (js "text/html") (js "/srv/public/site/index.html") ∧
    (staticFileHandler exampleEnv ⟨js "GET", js "/logo.png"⟩ []).run exampleFs =
      .pipe 200 (js "image/png") (js "/srv/public/logo.png") :=
  ⟨(staticFileHandler_cases exampleEnv exampleFs ⟨js "GET", js "/doesnotexist.png"⟩ []).1
      (by decide),
    ((staticFileHandler_cases exampleEnv exampleFs ⟨js "GET", js "/docs"⟩ []).2.1
      [js "a.txt", js "b"] (by decide) (by decide) (by decide)).1.trans (by decide),
    ((staticFileHandler_cases exampleEnv exampleFs ⟨js "GET", js "/site"⟩ []).2.2.1
      (by decide) (by decide)).trans (by decide),
    ((staticFileHandler_cases exampleEnv exampleFs ⟨js "GET", js "/logo.png"⟩ []).2.2.2
      (by decide)).trans (by decide)⟩

/-- C10: `serveFile` answers 200 and streams the file, with a content type fixed
by `path.extname` of the path alone: `image/jpeg` for `.jpg` and `.jpeg`,
`image/png` for `.png`, `text/css` for `.css`, `text/javascript` for `.js`, and
`text/html` for any other extension, among them `.html`, none, and `.PNG`. -/
theorem serveFile_content_type (filePath : JSString) :
    ∃ contentType, serveFile filePath = .reply (.pipe 200 contentType filePath) ∧
      (extname filePath = js ".jpg" ∨ extname filePath = js ".jpeg" →
        contentType = js "image/jpeg") ∧
      (extname filePath = js ".png" → contentType = js "image/png") ∧
      (extname filePath = js ".css" → contentType = js "text/css") ∧
      (extname filePath = js ".js" → contentType = js "text/javascript") ∧
      (extname filePath ∉ [js ".jpg", js ".jpeg", js ".png", js ".css", js ".js"] →
        contentType = js "text/html") ∧
      (extname filePath = js ".html" ∨ extname filePath = js "" ∨ extname filePath = js ".PNG" →
        contentType = js "text/html") := by
  refine ⟨_, rfl, ?_, ?_, ?_, ?_, ?_, ?_⟩
  · intro h
    simp only [h, if_true]
  · intro h
    rw [h]; decide
  · intro h
    rw [h]; decide
  · intro h
    rw [h]; decide
  · intro h
    simp only [List.mem_cons, List.mem_singleton, List.not_mem_nil, or_false, not_or] at h
    simp [h.1, h.2.1, h.2.2.1, h.2.2.2.1, h.2.2.2.2]
  · intro h
    rcases h with h | h | h <;> (rw [h]; decide)

/-- Instance of C10: a `.png` file, a `.PNG` file and a file without extension. -/
theorem serveFile_content_type_witness :
    serveFile (js "/srv/public/logo.png") =
      .reply (.pipe 200 (js "image/png") (js "/srv/public/logo.png")) ∧
    serveFile (js "/srv/public/LOGO.PNG") =
      .reply (.pipe 200 (js "text/html") (js "/srv/public/LOGO.PNG")) ∧
    serveFile (js "/srv/public/README") =
      .reply (.pipe 200 (js "text/html") (js "/srv/public/README")) := by
  refine ⟨?_, ?_, ?_⟩
  · obtain ⟨ct, h, _, hpng, _⟩ := serveFile_content_type (js "/srv/public/logo.png")
    rw [h, hpng (by decide)]
  · obtain ⟨ct, h, _, _, _, _, _, hother⟩ := serveFile_content_type (js "/srv/public/LOGO.PNG")
    rw [h, hother (by decide)]
  · obtain ⟨ct, h, _, _, _, _, _, hother⟩ := serveFile_content_type (js "/srv/public/README")
    rw [h, hother (by decide)]

/-! ## The timeout guard -/

theorem Exchange.run_append (x : Exchange) (pre post : List Event) :
    x.run (pre ++ post) = (x.run pre).run post := by
  simp [Exchange.run, List.foldl_append]

theorem Exchange.run_cons (x : Exchange) (e : Event) (post : List Event) :
    x.run (e :: post) = (x.step e).run post := rfl

theorem Exchange.respond_consistent (x : Exchange) (r : Reply) (h : x.Consistent) :
    (x.respond r).Consistent := by
  obtain ⟨timer, headersSent, ended, finished, written, crashed⟩ := x
  cases r <;> cases headersSent <;> cases ended <;> cases finished <;>
    simp_all [Exchange.Consistent, Exchange.respond]

theorem Exchange.step_consistent (x : Exchange) (e : Event) (h : x.Consistent) :
    (x.step e).Consistent := by
  cases e with
  | timerElapsed =>
    by_cases hc : x.crashed ∨ x.timer ≠ .armed
    · simp only [Exchange.step, hc, if_true]; exact h
    · simp only [Exchange.step, hc, if_false]
      apply Exchange.respond_consistent
      obtain ⟨h1, h2, h3, h4, h5⟩ := h
      exact ⟨h1, h2, h3, h4, by simp⟩
  | handler r =>
    by_cases hc : x.crashed = true
    · simp only [Exchange.step, hc, if_true]; exact h
    · simp only [Exchange.step, hc]
      exact Exchange.respond_consistent x r h
  | streamEnd =>
    obtain ⟨timer, headersSent, ended, finished, written, crashed⟩ := x
    cases crashed <;> cases headersSent <;> cases ended <;> cases finished <;>
      simp_all [Exchange.Consistent, Exchange.step]
  | finish =>
    obtain ⟨timer, headersSent, ended, finished, written, crashed⟩ := x
    cases crashed <;> cases headersSent <;> cases ended <;> cases finished <;>
      simp_all [Exchange.Consistent, Exchange.step]

theorem Exchange.run_consistent (trace : List Event) :
    ∀ x : Exchange, x.Consistent → (x.run trace).Consistent := by
  induction trace with
  | nil => intro x h; exact h
  | cons e rest ih => intro x h; exact ih _ (Exchange.step_consistent x e h)

theorem Exchange.start_consistent : Exchange.start.Consistent := by
  refine ⟨?_, ?_, ?_, ?_, ?_⟩ <;> simp [Exchange.start]

theorem Exchange.step_after_head (x : Exchange) (e : Event) (hs : x.headersSent = true) :
    (x.step e).headersSent = true ∧ (x.step e).written = x.written := by
  obtain ⟨timer, headersSent, ended, finished, written, crashed⟩ := x
  simp only at hs
  subst hs
  cases e with
  | timerElapsed =>
    cases crashed <;> cases timer <;> simp [Exchange.step, Exchange.respond, timeoutReply]
  | handler r =>
    cases crashed <;> cases r <;> simp [Exchange.step, Exchange.respond]
  | streamEnd =>
    cases crashed <;> simp [Exchange.step]
  | finish =>
    cases crashed <;> cases ended <;> cases finished <;> simp [Exchange.step]

theorem Exchange.run_after_head (trace : List Event) :
    ∀ x : Exchange, x.headersSent = true → (x.run trace).written = x.written := by
  induction trace with
  | nil => intro x _; rfl
  | cons e rest ih =>
    intro x hs
    have h := Exchange.step_after_head x e hs
    rw [Exchange.run_cons, ih _ h.1, h.2]

theorem Exchange.step_timer_terminal (x : Exchange) (e : Event) :
    (x.timer = .fired → (x.step e).timer = .fired) ∧
    (x.timer = .cancelled → (x.step e).timer = .cancelled) := by
  obtain ⟨timer, headersSent, ended, finished, written, crashed⟩ := x
  constructor <;> intro ht <;> simp only at ht <;> subst ht <;> cases e with
  | timerElapsed => simp [Exchange.step]
  | handler r =>
    cases crashed <;> cases r <;> cases headersSent <;> simp [Exchange.step, Exchange.respond]
  | streamEnd =>
    cases crashed <;> cases headersSent <;> simp [Exchange.step]
  | finish =>
    cases crashed <;> cases ended <;> cases finished <;> simp [Exchange.step]

theorem Exchange.run_timer_terminal (trace : List Event) :
    ∀ x : Exchange, (x.timer = .fired → (x.run trace).timer = .fired) ∧
      (x.timer = .cancelled → (x.run trace).timer = .cancelled) := by
  induction trace with
  | nil => intro x; exact ⟨id, id⟩
  | cons e rest ih =>
    intro x
    have hs := Exchange.step_timer_terminal x e
    have hr := ih (x.step e)
    exact ⟨fun h => hr.1 (hs.1 h), fun h => hr.2 (hs.2 h)⟩

theorem Exchange.timer_fires_before_head (x : Exchange) (post : List Event)
    (hc : x.Consistent) (hs : x.headersSent = false) (ht : x.timer = .armed)
    (hcr : x.crashed = false) :
    (x.run (.timerElapsed :: post)).timer = .fired ∧
    (x.run (.timerElapsed :: post)).written = [timeoutReply] := by
  have hw : x.written = [] := hc.1 hs
  have hstep : x.step .timerElapsed =
      { x with timer := .fired, headersSent := true, ended := true, written := [timeoutReply] } := by
    simp [Exchange.step, Exchange.respond, timeoutReply, hs, ht, hcr, hw]
  rw [Exchange.run_cons, hstep]
  exact ⟨(Exchange.run_timer_terminal post _).1 rfl, Exchange.run_after_head post _ rfl⟩

theorem Exchange.finish_before_timer (x : Exchange) (post : List Event)
    (hc : x.Consistent) (ht : x.timer = .armed) (he : x.ended = true)
    (hf : x.finished = false) (hcr : x.crashed = false) :
    (x.run (.finish :: post)).timer = .cancelled ∧
    (x.run (.finish :: post)).written = x.written := by
  have hs : x.headersSent = true := hc.2.2.1 he
  have hstep : x.step .finish = { x with finished := true, timer := .cancelled } := by
    simp [Exchange.step, ht, he, hf, hcr]
  rw [Exchange.run_cons, hstep]
  exact ⟨(Exchange.run_timer_terminal post _).2 rfl, Exchange.run_after_head post _ hs⟩

/-- C8 at a request whose file is still streaming after 30 seconds (`GET
/big.html`): `serveFile` has written its 200 head, the timer elapses before
`finish`, and the timer callback calls `res.writeHead(408)` all the same. The call
throws, the exception is uncaught, and the only response on the connection is the
handler's 200: the timer has fired first and no 408 reply is written. The same
happens when a 404 has been sent and `finish` does not come. -/
theorem timeout_guard_fires_after_head :
    (Exchange.start.run
      [.handler (.pipe 200 (js "text/html") (js "/srv/public/big.html")), .timerElapsed]) =
      ⟨.fired, true, false, false,
        [.pipe 200 (js "text/html") (js "/srv/public/big.html")], true⟩ ∧
    timeoutReply ∉ (Exchange.start.run
      [.handler (.pipe 200 (js "text/html") (js "/srv/public/big.html")), .timerElapsed]).written ∧
    (Exchange.start.run
      [.handler (.send 404 (js "text/plain") (js "File not found")), .timerElapsed]) =
      ⟨.fired, true, true, false,
        [.send 404 (js "text/plain") (js "File not found")], true⟩ ∧
    ¬ (∀ trace : List Event, TimeoutGuarantee trace) := by
  refine ⟨by decide, by decide, by decide, fun h => ?_⟩
  have h2 := (h [.handler (.pipe 200 (js "text/html") (js "/srv/public/big.html")),
    .timerElapsed]).2
  revert h2
  decide

/-- What the guard does keep: whatever happens to a request, at most one response
is written. If the timer elapses while it is armed and no response head has been
written, the 408 `Request Timeout` reply is written and stays the only response,
the timer being fired from then on. If `finish` comes while the timer is armed, the
timer is cancelled from then on and nothing more is written. No event changes a
timer that is fired or cancelled. -/
theorem timeout_guard_before_head :
    (∀ trace : List Event, (Exchange.start.run trace).written.length ≤ 1) ∧
    (∀ pre post : List Event,
      (Exchange.start.run pre).headersSent = false →
      (Exchange.start.run pre).timer = .armed →
      (Exchange.start.run pre).crashed = false →
      (Exchange.start.run (pre ++ .timerElapsed :: post)).timer = .fired ∧
      (Exchange.start.run (pre ++ .timerElapsed :: post)).written = [timeoutReply]) ∧
    (∀ pre post : List Event,
      (Exchange.start.run pre).timer = .armed →
      (Exchange.start.run pre).ended = true →
      (Exchange.start.run pre).finished = false →
      (Exchange.start.run pre).crashed = false →
      (Exchange.start.run (pre ++ .finish :: post)).timer = .cancelled ∧
      (Exchange.start.run (pre ++ .finish :: post)).written = (Exchange.start.run pre).written) ∧
    (∀ (x : Exchange) (e : Event),
      (x.timer = .fired → (x.step e).timer = .fired) ∧
      (x.timer = .cancelled → (x.step e).timer = .cancelled)) := by
  refine ⟨?_, ?_, ?_, Exchange.step_timer_terminal⟩
  · intro trace
    have hc := Exchange.run_consistent trace _ Exchange.start_consistent
    cases hs : (Exchange.start.run trace).headersSent with
    | false => simp [hc.1 hs]
    | true => simp [hc.2.1 hs]
  · intro pre post hs ht hcr
    rw [Exchange.run_append]
    exact Exchange.timer_fires_before_head _ post
      (Exchange.run_consistent pre _ Exchange.start_consistent) hs ht hcr
  · intro pre post ht he hf hcr
    rw [Exchange.run_append]
    exact Exchange.finish_before_timer _ post
      (Exchange.run_consistent pre _ Exchange.start_consistent) ht he hf hcr

/-- Two runs of the guard that go well: the timer elapses while `stat` is pending
and the handler's later 404 is not written; and a 404 that finishes first cancels
the timer, so that the later timeout writes nothing. -/
theorem timeout_guard_before_head_instance :
    ((Exchange.start.run ([] ++ .timerElapsed ::
        [.handler (.send 404 (js "text/plain") (js "File not found")), .finish])).timer = .fired ∧
      (Exchange.start.run ([] ++ .timerElapsed ::
        [.handler (.send 404 (js "text/plain") (js "File not found")), .finish])).written
          = [timeoutReply]) ∧
    ((Exchange.start.run ([.handler (.send 404 (js "text/plain") (js "File not found"))] ++
        .finish :: [.timerElapsed])).timer = .cancelled ∧
      (Exchange.start.run ([.handler (.send 404 (js "text/plain") (js "File not found"))] ++
        .finish :: [.timerElapsed])).written =
        (Exchange.start.run
          [.handler (.send 404 (js "text/plain") (js "File not found"))]).written) :=
  ⟨timeout_guard_before_head.2.1 []
      [.handler (.send 404 (js "text/plain") (js "File not found")), .finish]
      (by decide) (by decide) (by decide),
    timeout_guard_before_head.2.2.1 [.handler (.send 404 (js "text/plain") (js "File not found"))]
      [.timerElapsed] (by decide) (by decide) (by decide) (by decide)⟩

/-! ## The rendered document when no key holds a dollar sign -/

theorem hexDigit_ne_dollar (d : Nat) : hexDigit d ≠ 36 := by
  unfold hexDigit
  split <;> omega

theorem encodeAttributeChar_no_dollar (u : Nat) : 36 ∉ encodeAttributeChar u := by
  have hp := encodeAttributeChar_isAttributePiece u
  unfold IsAttributePiece at hp
  split at hp
  · rename_i h
    rw [hp]
    simp only [List.mem_singleton]
    omega
  · obtain ⟨h, hnum, hpiece⟩ := hp
    rw [hpiece]
    intro hmem
    simp only [List.mem_append] at hmem
    rcases hmem with (hmem | hmem) | hmem
    · revert hmem; decide
    · have := hnum.2.1 36 hmem
      revert this; decide
    · revert hmem; decide

theorem encodeHtmlAttributes_no_dollar (s : JSString) : 36 ∉ encodeHtmlAttributes s := by
  intro hmem
  simp only [encodeHtmlAttributes, List.mem_flatten, List.mem_map] at hmem
  obtain ⟨piece, ⟨u, _, rfl⟩, hin⟩ := hmem
  exact encodeAttributeChar_no_dollar u hin

theorem hex4_no_dollar (u : Nat) : 36 ∉ hex4 u := by
  intro hmem
  simp only [hex4, List.mem_cons, List.mem_singleton, List.not_mem_nil, or_false] at hmem
  rcases hmem with h | h | h | h <;> exact hexDigit_ne_dollar _ h.symm

theorem jsonEscapeUnit_no_dollar (prev : Option Nat) (u : Nat) (next : Option Nat)
    (hu : u ≠ 36) : 36 ∉ jsonEscapeUnit prev u next := by
  have hlit : ∀ lit : JSString, 36 ∉ lit → 36 ∉ lit ++ hex4 u := by
    intro lit hl hmem
    rcases List.mem_append.mp hmem with h | h
    · exact hl h
    · exact hex4_no_dollar u h
  have hself : 36 ∉ [u] := by
    simp only [List.mem_singleton]
    exact fun h => hu h.symm
  unfold jsonEscapeUnit
  by_cases h1 : u = 8
  · rw [if_pos h1]; decide
  rw [if_neg h1]
  by_cases h2 : u = 9
  · rw [if_pos h2]; decide
  rw [if_neg h2]
  by_cases h3 : u = 10
  · rw [if_pos h3]; decide
  rw [if_neg h3]
  by_cases h4 : u = 12
  · rw [if_pos h4]; decide
  rw [if_neg h4]
  by_cases h5 : u = 13
  · rw [if_pos h5]; decide
  rw [if_neg h5]
  by_cases h6 : u = 34
  · rw [if_pos h6]; decide
  rw [if_neg h6]
  by_cases h7 : u = 92
  · rw [if_pos h7]; decide
  rw [if_neg h7]
  by_cases h8 : u < 32
  · rw [if_pos h8]; exact hlit _ (by decide)
  rw [if_neg h8]
  by_cases h9 : 0xD800 ≤ u ∧ u ≤ 0xDBFF
  · rw [if_pos h9]
    cases next with
    | none => exact hlit _ (by decide)
    | some v =>
      by_cases hv : 0xDC00 ≤ v ∧ v ≤ 0xDFFF
      · simp only [hv, and_self, if_true]; exact hself
      · simp only [hv, if_false]; exact hlit _ (by decide)
  rw [if_neg h9]
  by_cases h10 : 0xDC00 ≤ u ∧ u ≤ 0xDFFF
  · rw [if_pos h10]
    cases prev with
    | none => exact hlit _ (by decide)
    | some v =>
      by_cases hv : 0xD800 ≤ v ∧ v ≤ 0xDBFF
      · simp only [hv, and_self, if_true]; exact hself
      · simp only [hv, if_false]; exact hlit _ (by decide)
  rw [if_neg h10]
  exact hself

theorem jsonEscapeFrom_no_dollar (s : JSString) :
    ∀ prev : Option Nat, 36 ∉ s → 36 ∉ jsonEscapeFrom prev s := by
  induction s with
  | nil => intro _ _; simp [jsonEscapeFrom]
  | cons u rest ih =>
    intro prev hs
    simp only [List.mem_cons, not_or] at hs
    have hu : u ≠ 36 := fun h => hs.1 h.symm
    simp only [jsonEscapeFrom, List.mem_append, not_or]
    exact ⟨jsonEscapeUnit_no_dollar prev u _ hu, ih _ hs.2⟩

theorem quoteJSONString_no_dollar (s : JSString) (hs : 36 ∉ s) : 36 ∉ quoteJSONString s := by
  simp only [quoteJSONString, jsonEscape, List.mem_append, not_or]
  exact ⟨⟨by decide, jsonEscapeFrom_no_dollar s none hs⟩, by decide⟩

theorem join_no_dollar (sep : JSString) (hsep : 36 ∉ sep) (items : List JSString)
    (hitems : ∀ item ∈ items, 36 ∉ item) : 36 ∉ join sep items := by
  induction items with
  | nil => simp [join]
  | cons x rest ih =>
    cases rest with
    | nil => simpa [join] using hitems x (List.mem_cons_self _ _)
    | cons y rest2 =>
      have hx := hitems x (List.mem_cons_self _ _)
      have hrest := ih (fun item h => hitems item (List.mem_cons_of_mem _ h))
      simp only [join, List.mem_append, not_or]
      exact ⟨⟨hx, hsep⟩, hrest⟩

theorem jsonStringify_stringQuery_no_dollar (pairs : List (JSString × JSString))
    (h : ∀ p ∈ pairs, 36 ∉ p.1 ∧ 36 ∉ p.2) : 36 ∉ jsonStringify (stringQuery pairs) := by
  simp only [jsonStringify, List.mem_append, not_or]
  refine ⟨⟨by decide, ?_⟩, by decide⟩
  apply join_no_dollar _ (by decide)
  intro item hitem
  simp only [stringQuery, List.map_map, List.mem_map, Function.comp] at hitem
  obtain ⟨p, hp, rfl⟩ := hitem
  simp only [jsonValue, List.mem_append, not_or]
  exact ⟨⟨quoteJSONString_no_dollar _ (h p hp).1, by decide⟩,
    quoteJSONString_no_dollar _ (h p hp).2⟩

/-- For a valid query object with string values none of whose keys holds a `$`,
the 200 body is the template with the first occurrence of each placeholder
replaced by its text, the query placeholder by exactly the serialized mapping. -/
theorem informationHandler_body_of_no_dollar (env : Env) (fs : FileSystem) (req : Request)
    (pairs : List (JSString × JSString)) (template : JSString)
    (hmethod : req.method = js "GET")
    (hkeys : (pairs.map Prod.fst).Nodup)
    (hvalid : ∀ p ∈ pairs, trim p.1 ≠ [] ∧ trim p.2 ≠ [])
    (hdollar : ∀ p ∈ pairs, 36 ∉ p.1)
    (hread : fs.readFile (env.pathJoin [env.dirname, js "templates", js "information.html"])
      = some template) :
    (informationHandler env req (stringQuery pairs)).run fs =
      .send 200 (js "text/html")
        (renderTemplateSpec template (stringQuery
          (pairs.map fun p => (p.1, encodeHtmlAttributes (encodeHtmlEntities p.2))))) := by
  have hno : 36 ∉ jsonStringify (stringQuery
      (pairs.map fun p => (p.1, encodeHtmlAttributes (encodeHtmlEntities p.2)))) := by
    apply jsonStringify_stringQuery_no_dollar
    intro q hq
    obtain ⟨p, hp, rfl⟩ := List.mem_map.mp hq
    exact ⟨hdollar p hp, encodeHtmlAttributes_no_dollar _⟩
  simp [informationHandler, hmethod, validateQuery_stringQuery_valid pairs hvalid, Script.run,
    hread, informationCallback, sanitizeQuery_stringQuery pairs hkeys,
    renderTemplate_of_no_dollar _ _ hno]

end Httpd
